import Mathlib

/-
Verification of the RA2 reverse-auction platform (src/app.py) against its
specification.  The file shallowly embeds the bid-validation core:

  * `is_multiple_of`      — src/app.py lines 66-73 (the decrement rule);
  * `processEntry`        — the per-entry body of the bulk submit loop,
                            src/app.py lines 372-400;
  * `submitBatch`         — the whole Submit Selected Bids handler,
                            src/app.py lines 359-418 (errors collected into a
                            list, and the insert executed only when that list
                            is empty);
  * `lowestBid`           — the MIN(bid_amount) GROUP BY item_id query,
                            src/app.py line 363;
  * `bidPageFilter`       — the auction list shown on the bidding page,
                            src/app.py line 257 (status='live' AND end_time>NOW());
  * `start_auction`/`close_auction` — the buyer Manage Auction buttons,
                            src/app.py lines 119-135 (the UPDATE has no
                            status condition in its WHERE clause);
  * `add_item`            — the Add Item INSERT, src/app.py lines 176-183
                            (no status condition either).

Monetary amounts and the decrement step are embedded as rationals, times as
integers.  Item and auction identifiers are naturals.
-/

namespace RA2

/-- Tolerance used by the decrement rule, `tol=1e-9` in src/app.py line 66. -/
def tol : ℚ := 1 / 1000000000

/-- Decrement rule, src/app.py lines 66-73.  Note the order of the guards:
the `step == 0` test comes first and returns `True` unconditionally, so the
`diff <= 0` test is never reached when the step is zero. -/
def is_multiple_of (step diff : ℚ) : Bool :=
  if step = 0 then true
  else if diff ≤ 0 then false
  else decide (|((round (diff / step) : ℤ) : ℚ) - diff / step| < tol)

/-- Auction lifecycle states (the `status` column of the auctions table). -/
inductive Status
  | scheduled
  | live
  | closed
  deriving DecidableEq

/-- The auction columns the core logic reads. -/
structure Auction where
  status : Status
  start_time : ℤ
  end_time : ℤ
  min_decrement : ℚ
  deriving DecidableEq

/-- One row of the bulk bid editor, as stored in
`st.session_state["bulk_bid_edits"]`: an item id, the `select` checkbox and
the optional `your_bid` amount (src/app.py lines 339-353). -/
structure Entry where
  iid : Nat
  select : Bool
  your_bid : Option ℚ
  deriving DecidableEq

/-- The reasons carried by the error messages of src/app.py
lines 377, 387, 391, 397. -/
inductive Reason
  | noBidEntered
  | notLowerBase (bp : ℚ)
  | notLowerLowest (low : ℚ)
  | badDecrement (diff step : ℚ)
  deriving DecidableEq

/-- Outcome of one iteration of the submit loop for one entry. -/
inductive EntryOutcome
  | skipped
  | failed (r : Reason)
  | queued (amount : ℚ)
  deriving DecidableEq

/-- The body of the per-entry loop of the Submit Selected Bids handler,
src/app.py lines 372-400.  `low_map` is the freshly re-fetched lowest bid per
item (line 363) and `base` the base_price lookup (line 383).  Unselected
entries are skipped (line 373); a selected entry with no amount is recorded
as an error (line 377).  When the item has no bids yet, only the base-price
comparison is performed — and only if a base price was found (lines 382-387);
the decrement check (lines 394-397) lives in the branch where a current
lowest exists.  The Python guard `if min_dec and min_dec > 0` is equivalent
to `0 < min_dec` for a float. -/
def processEntry (min_dec : ℚ) (low_map base : Nat → Option ℚ) (e : Entry) :
    EntryOutcome :=
  if e.select = false then .skipped
  else
    match e.your_bid with
    | none => .failed .noBidEntered
    | some yb =>
      match low_map e.iid with
      | none =>
        match base e.iid with
        | none => .queued yb
        | some bp => if bp ≤ yb then .failed (.notLowerBase bp) else .queued yb
      | some cl =>
        if cl ≤ yb then .failed (.notLowerLowest cl)
        else if 0 < min_dec then
          if is_multiple_of min_dec (cl - yb) = false then
            .failed (.badDecrement (cl - yb) min_dec)
          else .queued yb
        else .queued yb

/-- Accumulator of the submit loop: the `errors` list and the `to_submit`
list of src/app.py lines 361-371. -/
structure BatchAcc where
  errors : List (Nat × Reason)
  toSubmit : List (Nat × ℚ)
  deriving DecidableEq

/-- One iteration of the submit loop, appending to `errors` or `to_submit`
exactly as src/app.py lines 372-400 do. -/
def stepEntry (min_dec : ℚ) (low_map base : Nat → Option ℚ) (acc : BatchAcc)
    (e : Entry) : BatchAcc :=
  match processEntry min_dec low_map base e with
  | .skipped => acc
  | .failed r => { acc with errors := acc.errors ++ [(e.iid, r)] }
  | .queued a => { acc with toSubmit := acc.toSubmit ++ [(e.iid, a)] }

/-- Result of the Submit Selected Bids handler: reported errors and the bid
rows actually inserted into the bids table. -/
structure BatchResult where
  errors : List (Nat × Reason)
  inserted : List (Nat × ℚ)
  deriving DecidableEq

/-- The Submit Selected Bids handler, src/app.py lines 359-418: run the loop
over all entries, then — lines 402-410 — execute the insert only when the
error list is empty (`if errors: st.error(...) else: cur.executemany(...)`). -/
def submitBatch (min_dec : ℚ) (low_map base : Nat → Option ℚ)
    (entries : List Entry) : BatchResult :=
  let acc := entries.foldl (stepEntry min_dec low_map base) ⟨[], []⟩
  if acc.errors = [] then ⟨[], acc.toSubmit⟩ else ⟨acc.errors, []⟩

/-- Per-entry failures of a batch, in entry order. -/
def failsOf (min_dec : ℚ) (low_map base : Nat → Option ℚ)
    (entries : List Entry) : List (Nat × Reason) :=
  entries.filterMap fun e =>
    match processEntry min_dec low_map base e with
    | .failed r => some (e.iid, r)
    | _ => none

/-- Per-entry validated bids of a batch, in entry order. -/
def queuedOf (min_dec : ℚ) (low_map base : Nat → Option ℚ)
    (entries : List Entry) : List (Nat × ℚ) :=
  entries.filterMap fun e =>
    match processEntry min_dec low_map base e with
    | .queued a => some (e.iid, a)
    | _ => none

/-- Minimum of a list of amounts, `none` on the empty list: the value of
SQL `MIN(bid_amount)` over a group. -/
def lowestOf : List ℚ → Option ℚ
  | [] => none
  | a :: l =>
    match lowestOf l with
    | none => some a
    | some m => some (min a m)

/-- The record-store state the handlers read and write: the selected
auction's row, the base_price lookup of auction_items, and the bids table
(item id, amount) in insertion order. -/
structure DB where
  auction : Auction
  items : Nat → Option ℚ
  bids : List (Nat × ℚ)

/-- The lowest-bid query (src/app.py line 363 and the
v_lowest_bids_per_item view): MIN(bid_amount) for one item. -/
def lowestBid (db : DB) (iid : Nat) : Option ℚ :=
  lowestOf ((db.bids.filter fun p => decide (p.1 = iid)).map fun p => p.2)

/-- The full submit handler acting on the store.  It reads the auction's
min_decrement, the fresh lowest bids and the base prices, and appends the
accepted rows to the bids table.  It takes no clock and never reads the
auction's status or end_time: src/app.py lines 359-418 contain no such
query — liveness was only checked when the auction list was rendered. -/
def submitHandler (db : DB) (entries : List Entry) : DB × BatchResult :=
  let r := submitBatch db.auction.min_decrement (lowestBid db) db.items entries
  ({ db with bids := db.bids ++ r.inserted }, r)

/-- The auction list offered on the bidding page, src/app.py line 257:
`WHERE status='live' AND end_time>NOW()`. -/
def bidPageFilter (now : ℤ) (a : Auction) : Bool :=
  decide (a.status = Status.live) && decide (now < a.end_time)

/-- Replace the auction's status and times, keeping everything else. -/
def withAuctionState (db : DB) (s : Status) (st et : ℤ) : DB :=
  { db with auction := { db.auction with status := s, start_time := st, end_time := et } }

/-- The Start Auction Now button, src/app.py lines 120-128:
`UPDATE auctions SET status='live', start_time=NOW(), end_time=NOW()+duration
WHERE id=%s` — the WHERE clause names only the id, so the update applies to
any auction whatever its current status. -/
def start_auction (now dur : ℤ) (a : Auction) : Auction :=
  { a with status := .live, start_time := now, end_time := now + dur }

/-- The Close Auction button, src/app.py line 133. -/
def close_auction (a : Auction) : Auction :=
  { a with status := .closed }

/-- The Add Item insert, src/app.py lines 176-183.  The auction pick list
(line 163) filters only by creator and the INSERT carries no status
condition, so the item is attached whatever the auction's status. -/
def add_item (db : DB) (iid : Nat) (bp : ℚ) : DB :=
  { db with items := fun j => if j = iid then some bp else db.items j }

/-- The read-and-validate half of one supplier's submission of a single bid
(the low_map query plus the per-entry validation), used to model two
submissions interleaving at the store. -/
def validateOne (db : DB) (iid : Nat) (a : ℚ) : Bool :=
  match processEntry db.auction.min_decrement (lowestBid db) db.items
      ⟨iid, true, some a⟩ with
  | .queued _ => true
  | _ => false

/-- The insert half of one supplier's submission: src/app.py line 409 is a
plain `INSERT INTO bids(...) VALUES(...)` with no condition on the current
lowest bid. -/
def insertOne (db : DB) (iid : Nat) (a : ℚ) : DB :=
  { db with bids := db.bids ++ [(iid, a)] }

/-- Sequential single-item bidding: each submission re-runs the per-entry
validation against the freshly computed lowest of the accepted bids (exactly
what the line-363 query returns for that item) and prepends on success, so
the accepted list is kept newest-first. -/
def admitSeq (min_dec : ℚ) (base : Option ℚ) (acc : List ℚ) (a : ℚ) :
    List ℚ :=
  match processEntry min_dec (fun _ => lowestOf acc) (fun _ => base)
      ⟨0, true, some a⟩ with
  | .queued v => v :: acc
  | _ => acc

/-- A store whose auction is still marked live but whose end_time (10) has
already passed by submission time. -/
def db_expired : DB :=
  ⟨⟨.live, 0, 10, 0⟩, (fun i => if i = 1 then some 100 else none), []⟩

/-- A store whose auction has been closed. -/
def db_closed : DB :=
  ⟨⟨.closed, 0, 10, 0⟩, (fun i => if i = 1 then some 100 else none), []⟩

/-- A live auction with one item of base price 100 and a standing bid of 90
on it — the reference price of spec Scenario E. -/
def dbE : DB :=
  ⟨⟨.live, 0, 100, 0⟩, (fun i => if i = 1 then some 100 else none), [(1, 90)]⟩

/-- The rounding of a rational is the integer closest to it, so any integer
within the tolerance of `r` puts `round r` within the tolerance as well. -/
theorem round_close (r : ℚ) (n : ℤ) (h : |(n : ℚ) - r| < tol) :
    |((round r : ℤ) : ℚ) - r| < tol :=
  calc |((round r : ℤ) : ℚ) - r| = |r - ((round r : ℤ) : ℚ)| := abs_sub_comm _ _
    _ ≤ |r - (n : ℚ)| := round_le r n
    _ = |(n : ℚ) - r| := abs_sub_comm _ _
    _ < tol := h

/-- Unrolling of the submit loop: the accumulator collects exactly the
per-entry failures and the per-entry validated bids, in entry order. -/
theorem foldl_stepEntry (d : ℚ) (lm b : Nat → Option ℚ) (entries : List Entry) :
    ∀ acc : BatchAcc,
      entries.foldl (stepEntry d lm b) acc =
        ⟨acc.errors ++ failsOf d lm b entries,
         acc.toSubmit ++ queuedOf d lm b entries⟩ := by
  induction entries with
  | nil => intro acc; simp [failsOf, queuedOf]
  | cons e es ih =>
    intro acc
    rw [List.foldl_cons, ih]
    cases h : processEntry d lm b e with
    | skipped => simp [stepEntry, h, failsOf, queuedOf, List.filterMap_cons]
    | failed r => simp [stepEntry, h, failsOf, queuedOf, List.filterMap_cons]
    | queued a => simp [stepEntry, h, failsOf, queuedOf, List.filterMap_cons]

/-- A batch with a single entry inserts exactly what the per-entry
validation queues for it. -/
theorem submitBatch_singleton (d : ℚ) (lm b : Nat → Option ℚ) (e : Entry) :
    (submitBatch d lm b [e]).inserted =
      match processEntry d lm b e with
      | .queued a => [(e.iid, a)]
      | _ => [] := by
  cases h : processEntry d lm b e <;> simp [submitBatch, stepEntry, h]

/-- On a strictly increasing list the minimum is the head. -/
theorem lowestOf_head (l : List ℚ) (h : List.Chain' (· < ·) l) :
    lowestOf l = l.head? := by
  induction l with
  | nil => rfl
  | cons a t ih =>
    cases t with
    | nil => rfl
    | cons c t2 =>
      have h1 : a < c := (List.chain'_cons.mp h).1
      have h2 : List.Chain' (· < ·) (c :: t2) := (List.chain'_cons.mp h).2
      have he : lowestOf (c :: t2) = some c := ih h2
      have hu : lowestOf (a :: c :: t2) =
          match lowestOf (c :: t2) with
          | none => some a
          | some m => some (min a m) := rfl
      rw [hu, he]
      show some (min a c) = some a
      rw [min_eq_left h1.le]

/-- One sequential submission preserves the bidding invariant: the accepted
list (newest first) stays strictly increasing and stays below the base
price. -/
theorem admitSeq_invariant (d b a : ℚ) (acc : List ℚ)
    (h1 : List.Chain' (· < ·) acc) (h2 : ∀ x ∈ acc, x < b) :
    List.Chain' (· < ·) (admitSeq d (some b) acc a) ∧
      ∀ x ∈ admitSeq d (some b) acc a, x < b := by
  cases acc with
  | nil =>
    by_cases hb : b ≤ a
    · have heq : admitSeq d (some b) [] a = [] := by
        simp [admitSeq, processEntry, lowestOf, hb]
      rw [heq]
      exact ⟨List.chain'_nil, by intro x hx; cases hx⟩
    · have heq : admitSeq d (some b) [] a = [a] := by
        simp [admitSeq, processEntry, lowestOf, hb]
      rw [heq]
      refine ⟨List.chain'_singleton a, ?_⟩
      intro x hx
      rw [List.mem_singleton.mp hx]
      exact not_le.mp hb
  | cons c t =>
    have hl : lowestOf (c :: t) = some c := lowestOf_head (c :: t) h1
    have hstep : admitSeq d (some b) (c :: t) a = a :: c :: t ∧ a < c ∨
        admitSeq d (some b) (c :: t) a = c :: t := by
      by_cases hc : c ≤ a
      · right; simp [admitSeq, processEntry, hl, hc]
      · by_cases hd : 0 < d
        · by_cases hm : is_multiple_of d (c - a) = false
          · right; simp [admitSeq, processEntry, hl, hc, hd, hm]
          · left
            exact ⟨by simp [admitSeq, processEntry, hl, hc, hd, hm], not_le.mp hc⟩
        · left
          exact ⟨by simp [admitSeq, processEntry, hl, hc, hd], not_le.mp hc⟩
    rcases hstep with ⟨heq, hac⟩ | heq
    · rw [heq]
      constructor
      · exact List.chain'_cons.mpr ⟨hac, h1⟩
      · intro x hx
        rcases List.mem_cons.mp hx with rfl | hx2
        · exact lt_trans hac (h2 c (List.mem_cons_self c t))
        · exact h2 x hx2
    · rw [heq]
      exact ⟨h1, h2⟩

/-- The bidding invariant is preserved along any sequence of submissions. -/
theorem foldl_admitSeq_invariant (d b : ℚ) (as : List ℚ) :
    ∀ acc : List ℚ, List.Chain' (· < ·) acc → (∀ x ∈ acc, x < b) →
      List.Chain' (· < ·) (as.foldl (admitSeq d (some b)) acc) ∧
        ∀ x ∈ as.foldl (admitSeq d (some b)) acc, x < b := by
  induction as with
  | nil => intro acc hc hb; exact ⟨hc, hb⟩
  | cons a as ih =>
    intro acc hc hb
    rw [List.foldl_cons]
    have h := admitSeq_invariant d b a acc hc hb
    exact ih _ h.1 h.2

/-- Claim C1, counterexample: a batch with one valid entry (bid 90 against
base 100 on item 1) and one failing entry (bid 150 against base 100 on
item 2).  The failing entry is reported, but the valid entry is NOT
inserted: the handler aborts the whole insert as soon as the error list is
non-empty, contradicting the claim that one entry's failure never prevents
another valid entry from being committed. -/
theorem C1_cex :
    processEntry 0 (fun _ => none) (fun _ => some 100) ⟨1, true, some 90⟩ =
      EntryOutcome.queued 90 ∧
    processEntry 0 (fun _ => none) (fun _ => some 100) ⟨2, true, some 150⟩ =
      EntryOutcome.failed (Reason.notLowerBase 100) ∧
    (submitBatch 0 (fun _ => none) (fun _ => some 100)
        [⟨1, true, some 90⟩, ⟨2, true, some 150⟩]).errors =
      [(2, Reason.notLowerBase 100)] ∧
    (submitBatch 0 (fun _ => none) (fun _ => some 100)
        [⟨1, true, some 90⟩, ⟨2, true, some 150⟩]).inserted = [] := by
  decide

/-- Claim C1 (amended): failing entries are reported as (item, reason)
pairs, but the batch is all-or-nothing — the validated entries are inserted
exactly when no entry failed, and any failure empties the insert. -/
theorem C1_amended (d : ℚ) (lm b : Nat → Option ℚ) (entries : List Entry) :
    (submitBatch d lm b entries).errors = failsOf d lm b entries ∧
    (submitBatch d lm b entries).inserted =
      (if failsOf d lm b entries = [] then queuedOf d lm b entries else []) := by
  simp only [submitBatch, foldl_stepEntry, List.nil_append]
  by_cases h : failsOf d lm b entries = []
  · simp [h]
  · simp [h]

/-- Claim C2, code evaluated at the failing input: item 1 has no bids,
base_price 100, min_decrement 5.  A first bid of 97 (gap 3, not a multiple
of 5) is queued for insertion instead of being rejected with BadDecrement —
the decrement check of the submit loop sits in the branch that requires an
existing lowest bid, so first bids never reach it, even though the
decrement rule itself rejects the gap, and even though the dead
`else (base_price - your_bid)` arm of the diff expression shows the check
was meant to cover first bids too.  A first bid of 95 is queued, as the
claim states. -/
theorem C2_thm :
    processEntry 5 (fun _ => none) (fun i => if i = 1 then some 100 else none)
        ⟨1, true, some 97⟩ = EntryOutcome.queued 97 ∧
    is_multiple_of 5 (100 - 97) = false ∧
    processEntry 5 (fun _ => none) (fun i => if i = 1 then some 100 else none)
        ⟨1, true, some 95⟩ = EntryOutcome.queued 95 := by
  refine ⟨by decide, ?_, by decide⟩
  have h3 : ((100 : ℚ) - 97) = 3 := by norm_num
  rw [h3]
  unfold is_multiple_of
  rw [if_neg (by norm_num : ¬ (5 : ℚ) = 0), if_neg (by norm_num : ¬ (3 : ℚ) ≤ 0)]
  rw [decide_eq_false_iff_not]
  have h1 : round ((3 : ℚ) / 5) = 1 := by
    rw [round_eq, show (3 : ℚ) / 5 + 1 / 2 = 11 / 10 by norm_num]
    rw [Int.floor_eq_iff]
    constructor <;> norm_num
  rw [h1, show |((1 : ℤ) : ℚ) - 3 / 5| = 2 / 5 by rw [abs_of_pos] <;> norm_num]
  rw [tol]
  norm_num

/-- Claim C3, counterexample: an auction that was live and unexpired when
the bidding page was rendered at time 5 (`bidPageFilter` accepts it), but
whose end_time 10 has passed by submission time 11 — and another auction
that has meanwhile been closed.  In both stores the submit handler inserts
the bid with no error: it performs no status or end_time re-check, so the
bid is not rejected with AuctionExpired or AuctionNotLive. -/
theorem C3_cex :
    bidPageFilter 5 db_expired.auction = true ∧
    bidPageFilter 11 db_expired.auction = false ∧
    (submitHandler db_expired [⟨1, true, some 90⟩]).2.errors = [] ∧
    (submitHandler db_expired [⟨1, true, some 90⟩]).1.bids = [(1, 90)] ∧
    db_closed.auction.status = Status.closed ∧
    (submitHandler db_closed [⟨1, true, some 90⟩]).2.errors = [] ∧
    (submitHandler db_closed [⟨1, true, some 90⟩]).1.bids = [(1, 90)] := by
  decide

/-- Claim C3 (amended): liveness and expiry are enforced only by the
render-time auction list, which offers exactly the auctions with status
live and end_time beyond the current instant; the submission handler takes
no clock and its outcome is unchanged under any alteration of the
auction's status, start_time and end_time, so no re-check happens before
insert. -/
theorem C3_amended (now : ℤ) (db : DB) (s : Status) (st et : ℤ)
    (entries : List Entry) :
    (submitHandler (withAuctionState db s st et) entries).2 =
      (submitHandler db entries).2 ∧
    (submitHandler (withAuctionState db s st et) entries).1.bids =
      (submitHandler db entries).1.bids ∧
    (bidPageFilter now db.auction = true ↔
      db.auction.status = Status.live ∧ now < db.auction.end_time) := by
  refine ⟨rfl, rfl, ?_⟩
  simp [bidPageFilter]

/-- Claim C3, witness: the amended theorem applied to the expired store. -/
theorem C3_w :
    (submitHandler (withAuctionState db_expired Status.closed 0 0)
        [⟨1, true, some 90⟩]).2 =
      (submitHandler db_expired [⟨1, true, some 90⟩]).2 :=
  (C3_amended 11 db_expired Status.closed 0 0 [⟨1, true, some 90⟩]).1

/-- Claim C4, counterexample: the claim says the predicate is false for
every non-positive gap including when the step is 0, but the code tests
`step == 0` first and returns True unconditionally, so a zero step with
gap −1 yields true. -/
theorem C4_cex : is_multiple_of 0 (-1) = true := by decide

/-- Claim C4 (amended): for a positive step the predicate is true exactly
when the gap is positive and the ratio gap/step is within the 1e-9
tolerance of some integer; but when the step is 0 the predicate is true
for every gap, including non-positive ones. -/
theorem C4_amended (X g : ℚ) :
    (0 < X → (is_multiple_of X g = true ↔
      0 < g ∧ ∃ n : ℤ, |(n : ℚ) - g / X| < tol)) ∧
    is_multiple_of 0 g = true := by
  constructor
  · intro hX
    unfold is_multiple_of
    rw [if_neg hX.ne']
    by_cases hg : g ≤ 0
    · rw [if_pos hg]
      simp only [Bool.false_eq_true, false_iff, not_and]
      intro hg0
      exact absurd hg0 (not_lt.mpr hg)
    · rw [if_neg hg]
      push_neg at hg
      rw [decide_eq_true_eq]
      constructor
      · intro h
        exact ⟨hg, round (g / X), h⟩
      · rintro ⟨-, n, hn⟩
        exact round_close (g / X) n hn
  · unfold is_multiple_of
    rw [if_pos rfl]

/-- Claim C4, witness: the amended equivalence at step 5, gap 15. -/
theorem C4_w :
    is_multiple_of 5 15 = true ↔
      0 < (15 : ℚ) ∧ ∃ n : ℤ, |(n : ℚ) - 15 / 5| < tol :=
  (C4_amended 5 15).1 (by norm_num)

/-- Claim C5, counterexample: the start operation is an UPDATE whose WHERE
clause names only the auction id.  Starting a closed auction turns its
status back to live (a backward move), and starting a live auction resets
its end_time from 100 to 60. -/
theorem C5_cex :
    (start_auction 50 10 ⟨Status.closed, 0, 20, 0⟩).status = Status.live ∧
    (start_auction 50 10 ⟨Status.live, 0, 100, 0⟩).end_time = 60 := by
  decide

/-- Claim C5 (amended): the start operation succeeds for every auction
regardless of its current status, unconditionally setting status to live,
start_time to now and end_time to now plus the duration — so closed and
live auctions can be (re)started and a live auction's end_time reset. -/
theorem C5_amended (now dur : ℤ) (a : Auction) :
    (start_auction now dur a).status = Status.live ∧
    (start_auction now dur a).start_time = now ∧
    (start_auction now dur a).end_time = now + dur ∧
    (start_auction now dur a).min_decrement = a.min_decrement :=
  ⟨rfl, rfl, rfl, rfl⟩

/-- Claim C6, counterexample (spec Scenario E): with a standing lowest bid
of 90 and no decrement, submissions of 80 and 85 both validate against the
same reference.  After 80's insert commits, the lowest is 80 and 85 no
longer validates — yet 85's insert, a plain unconditional INSERT, still
commits, leaving both bids accepted instead of exactly one. -/
theorem C6_cex :
    validateOne dbE 1 80 = true ∧
    validateOne dbE 1 85 = true ∧
    lowestBid (insertOne dbE 1 80) 1 = some 80 ∧
    validateOne (insertOne dbE 1 80) 1 85 = false ∧
    (insertOne (insertOne dbE 1 80) 1 85).bids = [(1, 90), (1, 80), (1, 85)] := by
  decide

/-- Claim C6 (amended): the insert step is not conditioned on the bid still
being the strict minimum — whenever two submissions both validated against
the same store state, interleaving their inserts commits both of them,
adding two rows to the bids table. -/
theorem C6_amended (db : DB) (iid : Nat) (a b : ℚ)
    (ha : validateOne db iid a = true) (hb : validateOne db iid b = true) :
    (insertOne (insertOne db iid a) iid b).bids = db.bids ++ [(iid, a), (iid, b)] ∧
    (insertOne (insertOne db iid a) iid b).bids.length = db.bids.length + 2 := by
  constructor
  · simp [insertOne]
  · simp [insertOne]

/-- Claim C6, witness: the amended theorem at the Scenario E store. -/
theorem C6_w :
    (insertOne (insertOne dbE 1 80) 1 85).bids = dbE.bids ++ [(1, 80), (1, 85)] :=
  (C6_amended dbE 1 80 85 (by decide) (by decide)).1

/-- Claim C7, counterexample: the store's auction is live, yet adding an
item to it succeeds — the Add Item flow has no scheduled-only guard. -/
theorem C7_cex :
    dbE.auction.status = Status.live ∧
    (add_item dbE 7 250).items 7 = some 250 := by
  decide

/-- Claim C7 (amended): an item can be attached to an auction in any
status; the insert always succeeds and leaves the auction row and the bids
table untouched. -/
theorem C7_amended (db : DB) (iid : Nat) (bp : ℚ) :
    (add_item db iid bp).items iid = some bp ∧
    (add_item db iid bp).auction = db.auction ∧
    (add_item db iid bp).bids = db.bids := by
  refine ⟨?_, rfl, rfl⟩
  simp [add_item]

/-- Claim C8: under sequential execution on one item with base price b,
the accepted bids in order of acceptance (the reverse of the newest-first
accumulator) form a strictly decreasing sequence, and every accepted bid is
strictly below the base price — hence below the reference it superseded. -/
theorem C8_thm (d b : ℚ) (as : List ℚ) :
    List.Chain' (· > ·) ((as.foldl (admitSeq d (some b)) []).reverse) ∧
    ∀ x ∈ as.foldl (admitSeq d (some b)) [], x < b := by
  have h := foldl_admitSeq_invariant d b as [] List.chain'_nil
    (by intro x hx; cases hx)
  refine ⟨?_, h.2⟩
  rw [List.chain'_reverse]
  exact h.1.imp fun x y hxy => hxy

/-- Claim C8, witness: after sequential bids 95 then 90 against base 100,
the accepted bid 90 is indeed below the base price. -/
theorem C8_w : (90 : ℚ) < 100 :=
  (C8_thm 0 100 [95, 90]).2 90 (by decide)

/-- Claim C9, counterexample: a selected entry with no bid amount is not
silently skipped — the handler reports it as a (item, no-bid-entered)
error. -/
theorem C9_cex :
    (submitBatch 0 (fun _ => none) (fun _ => some 100) [⟨1, true, none⟩]).errors =
      [(1, Reason.noBidEntered)] := by
  decide

/-- Claim C9 (amended): unselected entries are silently skipped, but a
selected entry with no amount is reported as an error rather than skipped;
only selected entries with an amount undergo price validation. -/
theorem C9_amended (d : ℚ) (lm b : Nat → Option ℚ) (e : Entry) :
    (e.select = false → processEntry d lm b e = EntryOutcome.skipped) ∧
    (e.select = true → e.your_bid = none →
      processEntry d lm b e = EntryOutcome.failed Reason.noBidEntered) := by
  constructor
  · intro h
    simp [processEntry, h]
  · intro h1 h2
    simp [processEntry, h1, h2]

/-- Claim C9, witness: the amended theorem at a selected, amount-less
entry. -/
theorem C9_w :
    processEntry 0 (fun _ => none) (fun _ => some 100) ⟨1, true, none⟩ =
      EntryOutcome.failed Reason.noBidEntered :=
  (C9_amended 0 (fun _ => none) (fun _ => some 100) ⟨1, true, none⟩).2 rfl rfl

/-- Claim C10: when an item has no bids and no base price can be fetched,
a selected entry with any amount — for any decrement step — is queued for
insertion with no price validation at all. -/
theorem C10_thm (d a : ℚ) (iid : Nat) (lm b : Nat → Option ℚ)
    (h1 : lm iid = none) (h2 : b iid = none) :
    processEntry d lm b ⟨iid, true, some a⟩ = EntryOutcome.queued a := by
  simp [processEntry, h1, h2]

/-- Claim C10, witness: even a negative bid of −50 on a phantom item is
queued under a positive decrement step. -/
theorem C10_w :
    processEntry 5 (fun _ => none) (fun _ => none) ⟨3, true, some (-50)⟩ =
      EntryOutcome.queued (-50) :=
  C10_thm 5 (-50) 3 (fun _ => none) (fun _ => none) rfl rfl

end RA2
